import Mathlib

/-!
# Verification of the sherdog-scraper core

A shallow embedding, in Lean 4, of the core components of the
sherdog-scraper TypeScript repository, together with theorems settling the
frozen claims about its specification.

Embedded components (each definition is translated from the named source
function):

* `Sherdog.normalizeName`, `Sherdog.searchFighters`, `Sherdog.addFighter`,
  `Sherdog.hasFighterById` — `src/fighter-database.ts`
  (`FighterDatabaseManager`).  The persistent database is modelled as an
  insertion-ordered association list from normalized name to entry, which
  is exactly the iteration/update semantics of the JavaScript object that
  backs it.  The `lastUpdated` wall-clock ISO string is not modelled: no
  claim mentions it.
* `Sherdog.discoverFromFighter`, `Sherdog.expandDatabase`,
  `Sherdog.getFightersAtDepth`, `Sherdog.processFighter` —
  `src/fighter-discovery.ts` (`FighterDiscovery`).  The external
  browser/DOM contract (`navigateToFighter` / `extractFighterData` /
  `extractLinkedFighters`) is abstracted as a deterministic environment
  `Sherdog.Env`; a throw anywhere inside `processFighter` maps to the
  `Fetch.fail`, empty-name, or `Fetch.linksFail` cases, reproducing the
  exact points at which the database write does or does not happen.
  `database.save()` and the rate-limit wait are awaits that are modelled
  as always succeeding (no claim concerns persistence failures).  The
  `Math.random`-driven shuffle inside `expandDatabase` is abstracted as an
  arbitrary function parameter.  Each call additionally returns a ghost
  `CallTrace` recording, in order, the identifiers passed to
  `processFighter` (fetches) and the `(id, depth)` pairs written into
  `fighterDepthMap` (frontier insertions); the trace mirrors the side
  effects and never influences control flow.
* `Sherdog.Cache.set`, `Sherdog.Cache.cleanup`, `Sherdog.Cache.evictOldest`,
  `Sherdog.isExpired` — `src/core/scraper.ts` (`Cache`).  `Date.now()` is
  an explicit `now : Nat` parameter; all reads of the clock inside one
  `set` call are taken at the same millisecond.
* `Sherdog.recordSuccess`, `Sherdog.recordFailure` —
  `src/core/rate-limiter.ts` (`AdaptiveRateLimiter`).
* `Sherdog.waitForNextRequest`, `Sherdog.drainQueue`, `Sherdog.wakeTimer`,
  `Sherdog.runRL` — `src/core/rate-limiter.ts` (`RateLimiter`), embedded
  as a deterministic event-loop machine: `waitForNextRequest` is the
  synchronous body of the promise executor, `drainQueue` is the
  `processQueue` loop up to its next `await sleep`, and `wakeTimer` is the
  continuation that runs when that timer fires (at or after its scheduled
  time, as `setTimeout` guarantees only a lower bound).  A grant is a
  resolution of a `waitForNextRequest` promise, recorded with the caller
  and the current time.

JavaScript semantics preserved deliberately: `Map.set` updates in place or
appends (`setA`); `Map` iteration is insertion order; `0` is falsy (the
`maxFightersPerDepth` and `ttl` checks); `break` inside the per-depth loop
of `discoverFromFighter` exits before the `processed.add` on line 118.
-/

namespace Sherdog

/-- Lookup in an insertion-ordered association list (JS `Map.get` /
object indexing): first binding wins; keys are unique in any list built
by `setA` alone. -/
def lookupA {κ : Type} {β : Type} [DecidableEq κ] (k : κ) :
    List (κ × β) → Option β
  | [] => none
  | (k', v) :: rest => if k' = k then some v else lookupA k rest

/-- JS `Map.set` / object assignment: update the existing binding in
place (keeping its position) or append a new one at the end. -/
def setA {κ : Type} {β : Type} [DecidableEq κ] (k : κ) (v : β) :
    List (κ × β) → List (κ × β)
  | [] => [(k, v)]
  | (k', v') :: rest =>
    if k' = k then (k, v) :: rest else (k', v') :: setA k v rest

/-- JS `Set.add`: append if absent. -/
def addSet (x : String) (l : List String) : List String :=
  if x ∈ l then l else l ++ [x]

/-- A character matched by the JS regex class `\w` (`[A-Za-z0-9_]`). -/
def isWordChar (c : Char) : Bool :=
  c.isAlpha || c.isDigit || c = '_'

/-- Drop whitespace from both ends of a character list (JS
`String.prototype.trim`). -/
def trimWs (l : List Char) : List Char :=
  ((l.dropWhile Char.isWhitespace).reverse.dropWhile Char.isWhitespace).reverse

/-- `replace(/[^\w\s]/g, '')`: keep only word characters and whitespace. -/
def stripSpecial (l : List Char) : List Char :=
  l.filter (fun c => isWordChar c || c.isWhitespace)

/-- Worker for `collapseWs`: the flag says whether we are inside a
whitespace run whose first character has already been replaced. -/
def collapseAux : Bool → List Char → List Char
  | _, [] => []
  | inRun, c :: rest =>
    if c.isWhitespace then
      (if inRun then ([] : List Char) else [' ']) ++ collapseAux true rest
    else
      c :: collapseAux false rest

/-- `replace(/\s+/g, ' ')`: each maximal whitespace run becomes one
space. -/
def collapseWs (l : List Char) : List Char :=
  collapseAux false l

/-- `FighterDatabaseManager.normalizeName`: lower-case, trim, strip
non-word non-space characters, collapse whitespace runs — in that
order. -/
def normalizeName (s : String) : String :=
  ⟨collapseWs (stripSpecial (trimWs (s.data.map Char.toLower)))⟩

/-- One database entry (`FighterDatabase[name]` in `types.ts`); the
`lastUpdated` ISO timestamp string is not modelled. -/
structure DbEntry where
  id : String
  nickname : Option String
deriving DecidableEq, Repr

/-- The persistent fighter database: normalized name to entry, in
insertion order (a JS object with string keys). -/
abbrev Database := List (String × DbEntry)

/-- `FighterDatabaseManager.addFighter`. -/
def addFighter (db : Database) (name id : String)
    (nickname : Option String) : Database :=
  setA (normalizeName name) ⟨id, nickname⟩ db

/-- `FighterDatabaseManager.hasFighterById`: linear scan by entry id. -/
def hasFighterById (db : Database) (id : String) : Bool :=
  db.any (fun p => p.2.id == id)

/-- `hay.includes needle` for character lists (JS
`String.prototype.includes`). -/
def containsSub : List Char → List Char → Bool
  | [], needle => needle.isEmpty
  | c :: rest, needle => needle.isPrefixOf (c :: rest) || containsSub rest needle

/-- One element of the array returned by
`FighterDatabaseManager.searchFighters`. -/
structure SearchHit where
  name : String
  id : String
  nickname : Option String
deriving DecidableEq, Repr

/-- The loop body of `searchFighters`: exact matches are `unshift`ed to
the front of the results accumulated so far, substring matches (name, or
else normalized nickname) are `push`ed at the back. -/
def searchLoop (nq : String) : Database → List SearchHit → List SearchHit
  | [], acc => acc
  | (name, data) :: rest, acc =>
    if name = nq then
      searchLoop nq rest (⟨name, data.id, data.nickname⟩ :: acc)
    else if containsSub name.data nq.data then
      searchLoop nq rest (acc ++ [⟨name, data.id, data.nickname⟩])
    else
      match data.nickname with
      | some nick =>
        if containsSub (normalizeName nick).data nq.data then
          searchLoop nq rest (acc ++ [⟨name, data.id, data.nickname⟩])
        else
          searchLoop nq rest acc
      | none => searchLoop nq rest acc

/-- `FighterDatabaseManager.searchFighters`: normalize the query, scan
the store in iteration order, cap the result at 20. -/
def searchFighters (db : Database) (query : String) : List SearchHit :=
  (searchLoop (normalizeName query) db []).take 20

/-- The outcome of one invocation of the external browser contract for
one identifier, as consumed by `FighterDiscovery.processFighter`:
`fail` — `navigateToFighter` or `extractFighterData` throws (the fetch
fails before any database write); `ok` — a record with the given display
name, optional nickname and outgoing linked identifiers (an empty `name`
makes `processFighter` throw `INVALID_FIGHTER_DATA` before the write);
`linksFail` — the record is extracted and written, but
`extractLinkedFighters` then throws. -/
inductive Fetch where
  | fail : Fetch
  | ok (name : String) (nickname : Option String) (links : List String) : Fetch
  | linksFail (name : String) (nickname : Option String) : Fetch

/-- The deterministic fetch+parse contract: what the external browser
returns for each identifier. -/
abbrev Env := String → Fetch

/-- `fighterDepthMap`: identifier to the depth at which it was first
discovered, in insertion order (a JS `Map`). -/
abbrev DepthMap := List (String × Nat)

/-- The instance state of a `FighterDiscovery` engine: the `processed`
set, the `fighterDepthMap` frontier and the shared
`FighterDatabaseManager` store. -/
structure EngineState where
  processed : List String
  depthMap : DepthMap
  database : Database
deriving DecidableEq, Repr

/-- `DiscoveryResult` from `types.ts`; `fightersByDepth` is a JS object
with numeric keys, modelled as an insertion-ordered association list. -/
structure DiscoveryResult where
  newFighters : List String
  totalProcessed : Nat
  errors : List String
  depthReached : Nat
  fightersByDepth : List (Nat × List String)
deriving DecidableEq, Repr

/-- The empty `DiscoveryResult` built at the top of
`discoverFromFighter`. -/
def emptyResult : DiscoveryResult :=
  ⟨[], 0, [], 0, []⟩

/-- Ghost observation log of one engine call: identifiers passed to
`processFighter`, in order, and `(id, depth)` pairs written into
`fighterDepthMap`, in order. -/
structure CallTrace where
  fetches : List String
  inserts : List (String × Nat)
deriving DecidableEq, Repr

/-- `ScraperError` from `types.ts` (message and code). -/
structure ScraperErr where
  message : String
  code : String
deriving DecidableEq, Repr

/-- The error string pushed by the per-fighter `catch` block of
`discoverFromFighter`; the wrapped browser-error message is not modelled,
only the stable part of the template. -/
def errMsg (id : String) (d : Nat) : String :=
  "Failed to process " ++ id ++ " at depth " ++ toString d

/-- `FighterDiscovery.getFightersAtDepth`: all map entries with the given
depth, in map iteration (= insertion) order. -/
def getFightersAtDepth (m : DepthMap) (depth : Nat) : List String :=
  (m.filter (fun p => p.2 == depth)).map Prod.fst

/-- `FighterDiscovery.processFighter`: navigate, extract, require a
non-empty name, write the entry into the database, then extract the
linked identifiers.  Returns the updated state and either the linked
identifiers or a per-fighter error. -/
def processFighter (env : Env) (st : EngineState) (id : String) :
    EngineState × Except Unit (List String) :=
  match env id with
  | .fail => (st, .error ())
  | .ok name nick links =>
    if name = "" then (st, .error ())
    else ({st with database := addFighter st.database name id nick}, .ok links)
  | .linksFail name nick =>
    if name = "" then (st, .error ())
    else ({st with database := addFighter st.database name id nick}, .error ())

/-- The inner loop of `discoverFromFighter` (lines 87-96) that inserts
each linked fighter at `currentDepth + 1` when it is in neither the
frontier, the processed set nor the database. -/
def addLinks (d : Nat) : List String → EngineState → CallTrace →
    EngineState × CallTrace
  | [], st, tr => (st, tr)
  | l :: rest, st, tr =>
    if (lookupA l st.depthMap).isNone && !(st.processed.contains l)
        && !(hasFighterById st.database l) then
      addLinks d rest {st with depthMap := setA l (d + 1) st.depthMap}
        {tr with inserts := tr.inserts ++ [(l, d + 1)]}
    else
      addLinks d rest st tr

/-- The list stored under key `d` of `fightersByDepth` (`[]` when the
key is missing, which the loop body never relies on after the line-64
initialisation). -/
def lenAt (d : Nat) (fbd : List (Nat × List String)) : Nat :=
  ((lookupA d fbd).getD []).length

/-- `options.maxFightersPerDepth && length >= options.maxFightersPerDepth`
with JS truthiness: `0` (and absence) disables the cap. -/
def capReached (cap : Option Nat) (len : Nat) : Bool :=
  match cap with
  | none => false
  | some m => m != 0 && m ≤ len

/-- Push `id` onto `fightersByDepth[d]`. -/
def pushAt (d : Nat) (id : String) (fbd : List (Nat × List String)) :
    List (Nat × List String) :=
  setA d (((lookupA d fbd).getD []) ++ [id]) fbd

/-- `DiscoveryOptions` from `types.ts`. -/
structure DiscoveryOptions where
  depth : Nat
  maxFightersPerDepth : Option Nat
deriving DecidableEq, Repr

/-- The body of `for (const fighterId of fightersAtDepth)` in
`discoverFromFighter` (lines 72-119): skip processed or already-stored
identifiers, process the rest, record successes, push errors, insert
links below the depth bound, and stop at the per-depth cap.  The `break`
on line 107 exits before the `processed.add` on line 118, so the fighter
that triggers the cap is left out of the processed set. -/
def processList (env : Env) (opts : DiscoveryOptions) (d : Nat) :
    List String → EngineState → DiscoveryResult → CallTrace →
    EngineState × DiscoveryResult × CallTrace
  | [], st, res, tr => (st, res, tr)
  | id :: rest, st, res, tr =>
    if st.processed.contains id || hasFighterById st.database id then
      processList env opts d rest st res tr
    else
      let tr1 : CallTrace := {tr with fetches := tr.fetches ++ [id]}
      match processFighter env st id with
      | (st1, .error ()) =>
        processList env opts d rest
          {st1 with processed := addSet id st1.processed}
          {res with errors := res.errors ++ [errMsg id d]} tr1
      | (st1, .ok links) =>
        let res1 : DiscoveryResult :=
          {res with newFighters := res.newFighters ++ [id],
                    fightersByDepth := pushAt d id res.fightersByDepth,
                    totalProcessed := res.totalProcessed + 1}
        let stTr2 : EngineState × CallTrace :=
          if d < opts.depth then addLinks d links st1 tr1 else (st1, tr1)
        if capReached opts.maxFightersPerDepth (lenAt d res1.fightersByDepth) then
          (stTr2.1, res1, stTr2.2)
        else
          processList env opts d rest
            {stTr2.1 with processed := addSet id stTr2.1.processed}
            res1 stTr2.2

/-- The depth loop of `discoverFromFighter` (lines 57-124): stop past
`options.depth` or when a level is empty; otherwise initialise
`fightersByDepth[d] = []`, set `depthReached`, and process the snapshot
of the frontier at this depth. -/
def depthLoop (env : Env) (opts : DiscoveryOptions) :
    Nat → Nat → EngineState → DiscoveryResult → CallTrace →
    EngineState × DiscoveryResult × CallTrace
  | 0, _, st, res, tr => (st, res, tr)
  | fuel + 1, d, st, res, tr =>
    let atD := getFightersAtDepth st.depthMap d
    if atD.isEmpty then (st, res, tr)
    else
      let res0 : DiscoveryResult :=
        {res with fightersByDepth := setA d [] res.fightersByDepth,
                  depthReached := d}
      let out := processList env opts d atD st res0 tr
      depthLoop env opts fuel (d + 1) out.1 out.2.1 out.2.2

/-- `FighterDiscovery.discoverFromFighter`: seed the frontier with the
starting identifier at depth 0 (line 55, an unconditional `Map.set`),
then run the level-by-level BFS loop for depths `0 .. options.depth`.
The final `database.save()` is modelled as succeeding. -/
def discoverFromFighter (env : Env) (start : String)
    (opts : DiscoveryOptions) (st : EngineState) :
    EngineState × DiscoveryResult × CallTrace :=
  depthLoop env opts (opts.depth + 1) 0
    {st with depthMap := setA start 0 st.depthMap}
    emptyResult ⟨[], [(start, 0)]⟩

/-- The field-wise merge of partial results inside
`FighterDiscovery.expandDatabase` (lines 191-204). -/
def mergeResult (acc part : DiscoveryResult) : DiscoveryResult :=
  { newFighters := acc.newFighters ++ part.newFighters,
    totalProcessed := acc.totalProcessed + part.totalProcessed,
    errors := acc.errors ++ part.errors,
    depthReached := max acc.depthReached part.depthReached,
    fightersByDepth :=
      part.fightersByDepth.foldl
        (fun a p => setA p.1 (((lookupA p.1 a).getD []) ++ p.2) a)
        acc.fightersByDepth }

/-- The `for (const fighter of startingPoints)` loop of
`expandDatabase`: run `discoverFromFighter` for each starting identifier
on the accumulated state and merge the partial results.  In this model a
call never throws (persistence always succeeds), so the surrounding
`catch` is unreachable. -/
def expandLoop (env : Env) (opts : DiscoveryOptions) :
    List String → EngineState → DiscoveryResult → CallTrace →
    EngineState × DiscoveryResult × CallTrace
  | [], st, res, tr => (st, res, tr)
  | fid :: rest, st, res, tr =>
    let out := discoverFromFighter env fid opts st
    expandLoop env opts rest out.1 (mergeResult res out.2.1)
      ⟨tr.fetches ++ out.2.2.fetches, tr.inserts ++ out.2.2.inserts⟩

/-- `FighterDiscovery.expandDatabase`: throw `NO_STARTING_POINT` on an
empty database, otherwise pick `min 3 n` starting points from a shuffle
of the stored entries (the `Math.random` sort is abstracted as the
`shuffle` parameter) and expand from each. -/
def expandDatabase (env : Env) (shuffle : Database → Database)
    (opts : DiscoveryOptions) (st : EngineState) :
    EngineState × CallTrace × Except ScraperErr DiscoveryResult :=
  if st.database.isEmpty then
    (st, ⟨[], []⟩,
      .error ⟨"No fighters in database. Use discoverFromFighter() first.",
              "NO_STARTING_POINT"⟩)
  else
    let starts :=
      ((shuffle st.database).take (min 3 st.database.length)).map
        (fun p => p.2.id)
    let out := expandLoop env opts starts st emptyResult ⟨[], []⟩
    (out.1, out.2.2, .ok out.2.1)

/-- `CacheEntry` from `models/types.ts`: payload, creation time
(`Date.now()` milliseconds) and time-to-live. -/
structure CacheEntry (α : Type) where
  data : α
  timestamp : Nat
  ttl : Nat
deriving DecidableEq, Repr

/-- The in-memory `Cache` of `src/core/scraper.ts`: an insertion-ordered
key→entry map plus its configuration. -/
structure Cache (α : Type) where
  entries : List (String × CacheEntry α)
  defaultTtl : Nat
  maxSize : Nat
deriving DecidableEq, Repr

/-- `Cache.isExpired`: `now - entry.timestamp > entry.ttl` (the clock is
assumed monotone, so the JS subtraction is the truncated one). -/
def isExpired {α : Type} (now : Nat) (e : CacheEntry α) : Bool :=
  e.ttl < now - e.timestamp

/-- `Cache.cleanup`: delete every expired entry. -/
def Cache.cleanup {α : Type} (now : Nat)
    (l : List (String × CacheEntry α)) : List (String × CacheEntry α) :=
  l.filter (fun p => !isExpired now p.2)

/-- One iteration of the `for` loop inside `Cache.evictOldest`: keep
the running strict minimum of the timestamps and the first key that
attains it. -/
def oldestStep {α : Type} (acc : Option String × Nat)
    (p : String × CacheEntry α) : Option String × Nat :=
  if p.2.timestamp < acc.2 then (some p.1, p.2.timestamp) else acc

/-- The fold inside `Cache.evictOldest`: running strict minimum of the
timestamps, seeded with `Date.now()`, remembering the first key that
attains it. -/
def oldestKey {α : Type} (now : Nat)
    (l : List (String × CacheEntry α)) : Option String × Nat :=
  l.foldl oldestStep (none, now)

/-- `Cache.evictOldest`: delete the first entry whose timestamp is the
strict minimum of all timestamps and of `Date.now()`; when every entry
carries the current timestamp the fold finds no key and nothing is
deleted. -/
def Cache.evictOldest {α : Type} (now : Nat)
    (l : List (String × CacheEntry α)) : List (String × CacheEntry α) :=
  match (oldestKey now l).1 with
  | some k => l.eraseP (fun p => p.1 == k)
  | none => l

/-- `ttl || this.defaultTtl` with JS truthiness (`0` falls back to the
default). -/
def ttlOrDefault (ttl : Option Nat) (dflt : Nat) : Nat :=
  match ttl with
  | some t => if t = 0 then dflt else t
  | none => dflt

/-- `Cache.set`: sweep expired entries, evict the oldest entry when
still at or above capacity, then insert the new entry stamped `now`. -/
def Cache.set {α : Type} (now : Nat) (key : String) (data : α)
    (ttl : Option Nat) (c : Cache α) : Cache α :=
  let c1 := Cache.cleanup now c.entries
  let c2 := if c.maxSize ≤ c1.length then Cache.evictOldest now c1 else c1
  {c with entries := setA key ⟨data, now, ttlOrDefault ttl c.defaultTtl⟩ c2}

/-- The adaptive-backoff state of `AdaptiveRateLimiter`: the mutable
interval inherited from `RateLimiter` plus the success/failure counters
and the degraded flag.  The burst window fields do not interact with
`recordSuccess`/`recordFailure` and are not modelled here. -/
structure AdaptiveRL where
  rateLimitMs : Nat
  successCount : Nat
  failureCount : Nat
  adaptiveMode : Bool
deriving DecidableEq, Repr

/-- `AdaptiveRateLimiter.recordSuccess`: bump the success counter and
clear the degraded flag; the interval is untouched. -/
def recordSuccess (s : AdaptiveRL) : AdaptiveRL :=
  {s with successCount := s.successCount + 1, adaptiveMode := false}

/-- `AdaptiveRateLimiter.recordFailure`: bump the failure counter; when
the bumped counter is strictly greater than 3 and fewer than 10
successes are recorded, set the degraded flag and double the
interval. -/
def recordFailure (s : AdaptiveRL) : AdaptiveRL :=
  let s1 := {s with failureCount := s.failureCount + 1}
  if 3 < s1.failureCount ∧ s1.successCount < 10 then
    {s1 with adaptiveMode := true, rateLimitMs := s1.rateLimitMs * 2}
  else s1

/-- The observable state of a `RateLimiter` instance driven by the JS
event loop: the configured interval, `state.lastRequest`,
`state.queue` (pending caller names, FIFO), `state.processing`, the
wake-up time of the timer armed by the `sleep` inside `processQueue`
(when one is pending), and the ordered log of granted slots
`(caller, resolution time)`. -/
structure RLState where
  rateLimitMs : Nat
  lastRequest : Nat
  queue : List String
  processing : Bool
  pendingWake : Option Nat
  grants : List (String × Nat)
deriving DecidableEq, Repr

/-- A fresh `RateLimiter` (`lastRequest = 0`, empty queue). -/
def rlInit (rateLimitMs : Nat) : RLState :=
  ⟨rateLimitMs, 0, [], false, none, []⟩

/-- The `while` loop of `RateLimiter.processQueue`, run synchronously at
time `t` until it either empties the queue (clearing `processing`) or
reaches an `await sleep(timeToWait)`, arming the timer for
`t + timeToWait`.  The fuel is an upper bound on the queue length, so
the loop never runs out of it. -/
def drainQueue (t : Nat) : Nat → RLState → RLState
  | 0, s => s
  | fuel + 1, s =>
    match s.queue with
    | [] => {s with processing := false, pendingWake := none}
    | c :: rest =>
      let ttw := s.rateLimitMs - (t - s.lastRequest)
      if ttw = 0 then
        drainQueue t fuel
          {s with queue := rest, lastRequest := t,
                  grants := s.grants ++ [(c, t)]}
      else
        {s with pendingWake := some (t + ttw)}

/-- The synchronous body of `RateLimiter.waitForNextRequest` executed
when `caller` invokes it at time `t`: grant immediately when the
interval has already elapsed (this fast path never consults the queue),
otherwise enqueue the resolver and start `processQueue` when it is not
already running. -/
def waitForNextRequest (t : Nat) (caller : String) (s : RLState) : RLState :=
  let ttw := s.rateLimitMs - (t - s.lastRequest)
  if ttw = 0 then
    {s with lastRequest := t, grants := s.grants ++ [(caller, t)]}
  else
    let s1 := {s with queue := s.queue ++ [caller]}
    if s1.processing then s1
    else drainQueue t (s1.queue.length + 1) {s1 with processing := true}

/-- The continuation of `processQueue` after its `await sleep(...)`
returns at time `t` (at or after the armed wake-up time): shift the
queue, grant that caller at the current time without re-checking the
spacing, then continue the loop. -/
def wakeTimer (t : Nat) (s : RLState) : RLState :=
  match s.pendingWake with
  | none => s
  | some w =>
    if w ≤ t then
      match s.queue with
      | [] => {s with processing := false, pendingWake := none}
      | c :: rest =>
        drainQueue t (rest.length + 1)
          {s with queue := rest, lastRequest := t,
                  grants := s.grants ++ [(c, t)], pendingWake := none}
    else s

/-- One event-loop occurrence: a caller invoking `waitForNextRequest`,
or the pending `sleep` timer firing. -/
inductive RLEvent where
  | arrive (caller : String) : RLEvent
  | timer : RLEvent

/-- Run a timed event schedule against a fresh `RateLimiter`. -/
def runRL (rateLimitMs : Nat) (sched : List (Nat × RLEvent)) : RLState :=
  sched.foldl
    (fun s e =>
      match e.2 with
      | .arrive c => waitForNextRequest e.1 c s
      | .timer => wakeTimer e.1 s)
    (rlInit rateLimitMs)

/-! ### Specification-side definitions and concrete scenarios -/

/-- A database entry is a substring match for the normalized query when
its stored key, or else its normalized nickname, contains the query. -/
def matchesEntry (nq name : String) (data : DbEntry) : Bool :=
  containsSub name.data nq.data ||
    (match data.nickname with
     | some nick => containsSub (normalizeName nick).data nq.data
     | none => false)

/-- Written from the spec's words for the search-ordering claim: the
substring matches of a store, in store iteration order — every entry
whose key differs from the normalized query and whose raw key, or else
normalized nickname, contains the normalized query. -/
def substrMatches (nq : String) (db : Database) : List SearchHit :=
  (db.filter (fun p => p.1 != nq && matchesEntry nq p.1 p.2)).map
    (fun p => ⟨p.1, p.2.id, p.2.nickname⟩)

/-- A fresh engine: nothing processed, empty frontier, empty database. -/
def freshEngine : EngineState :=
  ⟨[], [], []⟩

/-- The environment of the depth-1 spec scenario: `A` is "Alice" linking
to `B` and `C`; every other fetch fails. -/
def envAlice : Env := fun id =>
  if id = "A" then .ok "Alice" none ["B", "C"] else .fail

/-- An environment in which `A` and `B` carry the same display name
`"x"` (hence the same normalized database key), so the second write
overwrites the first entry's id. -/
def envCollide : Env := fun id =>
  if id = "A" then .ok "x" none []
  else if id = "B" then .ok "x" none []
  else if id = "C" then .ok "c name" none []
  else .fail

/-- First call of the refetch scenario: discover from `A` with a
per-depth cap of 1, so the `break` skips `processed.add("A")`. -/
def collideCall1 : EngineState × DiscoveryResult × CallTrace :=
  discoverFromFighter envCollide "A" ⟨0, some 1⟩ freshEngine

/-- Second call: `B`'s entry overwrites the database key `"x"`, erasing
the only record that `A` was ever stored. -/
def collideCall2 : EngineState × DiscoveryResult × CallTrace :=
  discoverFromFighter envCollide "B" ⟨0, some 1⟩ collideCall1.1

/-- Third call: `A` is in neither the processed set nor the database,
so it is fetched a second time. -/
def collideCall3 : EngineState × DiscoveryResult × CallTrace :=
  discoverFromFighter envCollide "C" ⟨0, some 1⟩ collideCall2.1

/-- Environment for the per-depth-cap scenario: `A` and `B` both
succeed with no links. -/
def envTwo : Env := fun id =>
  if id = "A" then .ok "a1" none []
  else if id = "B" then .ok "b1" none []
  else .fail

/-- An engine whose frontier holds two identifiers at depth 0. -/
def engineTwoAtZero : EngineState :=
  ⟨[], [("A", 0), ("B", 0)], []⟩

/-- Cap scenario, first call: `maxFightersPerDepth = 1`, so only one of
the two depth-0 frontier entries is processed. -/
def capCall1 : EngineState × DiscoveryResult × CallTrace :=
  discoverFromFighter envTwo "A" ⟨0, some 1⟩ engineTwoAtZero

/-- Cap scenario, second call: the leftover depth-0 entry `B` is picked
up. -/
def capCall2 : EngineState × DiscoveryResult × CallTrace :=
  discoverFromFighter envTwo "B" ⟨0, none⟩ capCall1.1

/-- Environment for the frontier re-insertion scenario: `A` links to
`B`. -/
def envSeed : Env := fun id =>
  if id = "A" then .ok "aa" none ["B"]
  else if id = "B" then .ok "bb" none []
  else .fail

/-- Seed scenario, first call: `B` enters the frontier at depth 1. -/
def seedCall1 : EngineState × DiscoveryResult × CallTrace :=
  discoverFromFighter envSeed "A" ⟨1, none⟩ freshEngine

/-- Seed scenario, second call starting from `B`: line 55 re-inserts
`B` at depth 0, overwriting its depth-1 binding. -/
def seedCall2 : EngineState × DiscoveryResult × CallTrace :=
  discoverFromFighter envSeed "B" ⟨1, none⟩ seedCall1.1

/-- Environment for the truncated-shortest-path scenario: `A` links
directly to `X`, and `C` reaches `X` only through `E`. -/
def envTrunc : Env := fun id =>
  if id = "A" then .ok "aa" none ["X"]
  else if id = "C" then .ok "cc" none ["E"]
  else if id = "E" then .ok "ee" none ["X"]
  else if id = "X" then .ok "xx" none []
  else .fail

/-- Truncation scenario, first call: depth bound 0, so `A`'s link to
`X` is discovered but discarded. -/
def truncCall1 : EngineState × DiscoveryResult × CallTrace :=
  discoverFromFighter envTrunc "A" ⟨0, none⟩ freshEngine

/-- Truncation scenario, second call from `C` with depth 2: `X` enters
the frontier at depth 2 although the already-processed root `A` links to
it in one hop. -/
def truncCall2 : EngineState × DiscoveryResult × CallTrace :=
  discoverFromFighter envTrunc "C" ⟨2, none⟩ truncCall1.1

/-- The identifiers linked by a fetch outcome (the discovery graph's
outgoing edges, as the environment reports them). -/
def linksOf (env : Env) (id : String) : List String :=
  match env id with
  | .ok _ _ links => links
  | _ => []

/-- A cache at capacity 1 whose only entry was created at millisecond
5. -/
def cacheAtFive : Cache Nat :=
  ⟨[("k", ⟨7, 5, 100⟩)], 3600000, 1⟩

/-- A fresh `AdaptiveRateLimiter` counter state with a 1000 ms
interval. -/
def adaptiveInit : AdaptiveRL :=
  ⟨1000, 0, 0, false⟩

/-- The event schedule of the rate-limiter race: `A` arrives at 0 and is
queued with a wake-up armed for 1000; `B` arrives at 1000 and takes the
unsynchronized fast path; the timer fires at 1001 (`setTimeout`
guarantees only a lower bound) and grants `A` without re-checking the
spacing. -/
def raceSched : List (Nat × RLEvent) :=
  [(0, .arrive "A"), (1000, .arrive "B"), (1001, .timer)]

/-- A store holding an earlier-inserted substring match and a later
exact match for the query "Alice!". -/
def dbDemo : Database :=
  [("bob alice", ⟨"id1", none⟩), ("alice", ⟨"id2", some "The Champ"⟩)]

/-- Every binding of `m` is still present, unchanged, in `m'`. -/
def MapPres (m m' : DepthMap) : Prop :=
  ∀ id d, lookupA id m = some d → lookupA id m' = some d

/-- The frontier invariant carried through one `discoverFromFighter`
call whose pre-call frontier was `orig` and whose starting identifier is
`start`: every binding of the seeded frontier survives unchanged, every
logged insertion is present in the current frontier at its logged depth,
no identifier is logged twice, and every logged non-starting identifier
was absent from the pre-call frontier. -/
def DiscInv (orig : DepthMap) (start : String) (st : EngineState)
    (tr : CallTrace) : Prop :=
  MapPres (setA start 0 orig) st.depthMap ∧
  (∀ p ∈ tr.inserts, lookupA p.1 st.depthMap = some p.2) ∧
  (tr.inserts.map Prod.fst).Nodup ∧
  (∀ p ∈ tr.inserts, p.1 ≠ start → lookupA p.1 orig = none)

/-! ### Association-list lemmas -/

theorem lookupA_setA_self {κ β : Type} [DecidableEq κ] (k : κ) (v : β) :
    ∀ l : List (κ × β), lookupA k (setA k v l) = some v
  | [] => by simp [setA, lookupA]
  | (a, b) :: rest => by
    by_cases h : a = k
    · simp [setA, h, lookupA]
    · simp only [setA, if_neg h, lookupA, if_neg h]
      exact lookupA_setA_self k v rest

theorem lookupA_setA_ne {κ β : Type} [DecidableEq κ] {k k' : κ} (v : β)
    (h : k' ≠ k) : ∀ l : List (κ × β), lookupA k' (setA k v l) = lookupA k' l
  | [] => by simp [setA, lookupA, if_neg (Ne.symm h)]
  | (a, b) :: rest => by
    by_cases ha : a = k
    · subst ha
      simp [setA, lookupA, if_neg (Ne.symm h)]
    · simp only [setA, if_neg ha, lookupA]
      by_cases hak : a = k'
      · simp [hak]
      · simp only [if_neg hak]
        exact lookupA_setA_ne v h rest

theorem setA_length_le {κ β : Type} [DecidableEq κ] (k : κ) (v : β) :
    ∀ l : List (κ × β), (setA k v l).length ≤ l.length + 1
  | [] => by simp [setA]
  | (a, b) :: rest => by
    by_cases h : a = k
    · simp [setA, h]
    · simp only [setA, if_neg h, List.length_cons]
      exact Nat.succ_le_succ (setA_length_le k v rest)

/-! ### Per-depth cap lemmas -/

theorem lenAt_pushAt_self (d : Nat) (id : String)
    (fbd : List (Nat × List String)) :
    lenAt d (pushAt d id fbd) = lenAt d fbd + 1 := by
  simp [lenAt, pushAt, lookupA_setA_self]

theorem lenAt_pushAt_ne {d d' : Nat} (id : String)
    (fbd : List (Nat × List String)) (h : d' ≠ d) :
    lenAt d' (pushAt d id fbd) = lenAt d' fbd := by
  simp [lenAt, pushAt, lookupA_setA_ne _ h]

theorem lenAt_setA_self (d : Nat) (l : List String)
    (fbd : List (Nat × List String)) :
    lenAt d (setA d l fbd) = l.length := by
  simp [lenAt, lookupA_setA_self]

theorem lenAt_setA_ne {d d' : Nat} (l : List String)
    (fbd : List (Nat × List String)) (h : d' ≠ d) :
    lenAt d' (setA d l fbd) = lenAt d' fbd := by
  simp [lenAt, lookupA_setA_ne _ h]

theorem processList_cap (env : Env) (opts : DiscoveryOptions) (d m : Nat)
    (hm : opts.maxFightersPerDepth = some m) :
    ∀ (ids : List String) (st : EngineState) (res : DiscoveryResult)
      (tr : CallTrace),
      lenAt d res.fightersByDepth < m →
      (∀ d', lenAt d' res.fightersByDepth ≤ m) →
      ∀ d', lenAt d' (processList env opts d ids st res
        tr).2.1.fightersByDepth ≤ m := by
  intro ids
  induction ids with
  | nil => intro st res tr h1 h2 d'; simpa [processList] using h2 d'
  | cons id rest ih =>
    intro st res tr h1 h2 d'
    simp only [processList]
    split
    · exact ih st res tr h1 h2 d'
    · split
      · next st1 heq =>
        exact ih _ _ _ (by simpa using h1) (by simpa using h2) d'
      · next st1 links heq =>
        split
        · next hcap =>
          by_cases hd : d' = d
          · subst hd
            simpa [lenAt_pushAt_self] using Nat.succ_le_of_lt h1
          · simpa [lenAt_pushAt_ne id _ hd] using h2 d'
        · next hcap =>
          have hlt : lenAt d (pushAt d id res.fightersByDepth) < m := by
            simp only [capReached, hm, Bool.and_eq_true, bne_iff_ne,
              decide_eq_true_eq, not_and, ne_eq] at hcap
            rcases Nat.eq_zero_or_pos m with h0 | h0
            · omega
            · have := hcap (by omega)
              omega
          apply ih _ _ _ (by simpa using hlt)
          intro d''
          by_cases hd : d'' = d
          · subst hd
            simpa using Nat.le_of_lt hlt
          · simpa [lenAt_pushAt_ne id _ hd] using h2 d''

theorem depthLoop_cap (env : Env) (opts : DiscoveryOptions) (m : Nat)
    (hm : opts.maxFightersPerDepth = some m) (h0 : 0 < m) :
    ∀ (fuel d : Nat) (st : EngineState) (res : DiscoveryResult)
      (tr : CallTrace),
      (∀ d', lenAt d' res.fightersByDepth ≤ m) →
      ∀ d', lenAt d' (depthLoop env opts fuel d st res
        tr).2.1.fightersByDepth ≤ m := by
  intro fuel
  induction fuel with
  | zero => intro d st res tr h d'; simpa [depthLoop] using h d'
  | succ fuel ih =>
    intro d st res tr h d'
    simp only [depthLoop]
    split
    · exact h d'
    · apply ih
      apply processList_cap env opts d m hm
      · simpa [lenAt_setA_self] using h0
      · intro d''
        by_cases hd : d'' = d
        · subst hd; simp [lenAt_setA_self]
        · simpa [lenAt_setA_ne _ _ hd] using h d''

/-! ### Bookkeeping of `totalProcessed` -/

theorem processList_tp (env : Env) (opts : DiscoveryOptions) (d : Nat) :
    ∀ (ids : List String) (st : EngineState) (res : DiscoveryResult)
      (tr : CallTrace),
      res.totalProcessed = res.newFighters.length →
      (processList env opts d ids st res tr).2.1.totalProcessed =
        (processList env opts d ids st res tr).2.1.newFighters.length := by
  intro ids
  induction ids with
  | nil => intro st res tr h; simpa [processList] using h
  | cons id rest ih =>
    intro st res tr h
    simp only [processList]
    split
    · exact ih st res tr h
    · split
      · next st1 heq => exact ih _ _ _ (by simp [h])
      · next st1 links heq =>
        split
        · simp [List.length_append, h]
        · exact ih _ _ _ (by simp [List.length_append, h])

theorem depthLoop_tp (env : Env) (opts : DiscoveryOptions) :
    ∀ (fuel d : Nat) (st : EngineState) (res : DiscoveryResult)
      (tr : CallTrace),
      res.totalProcessed = res.newFighters.length →
      (depthLoop env opts fuel d st res tr).2.1.totalProcessed =
        (depthLoop env opts fuel d st res tr).2.1.newFighters.length := by
  intro fuel
  induction fuel with
  | zero => intro d st res tr h; simpa [depthLoop] using h
  | succ fuel ih =>
    intro d st res tr h
    simp only [depthLoop]
    split
    · exact h
    · exact ih _ _ _ _ (processList_tp env opts d _ _ _ _ (by simp [h]))

/-- C10: every `DiscoveryResult` returned by `discoverFromFighter` has
`totalProcessed` equal to the length of `newFighters` — the two are
incremented together only when a fetch succeeds, and neither failed
fetches nor identifiers skipped by the re-entry guard touch either. -/
theorem c10_totalProcessed_eq (env : Env) (start : String)
    (opts : DiscoveryOptions) (st : EngineState) :
    (discoverFromFighter env start opts st).2.1.totalProcessed =
      (discoverFromFighter env start opts st).2.1.newFighters.length := by
  exact depthLoop_tp env opts _ _ _ _ _ (by simp [emptyResult])

/-! ### The per-depth cap (claim C4) -/

/-- C4: when `maxFightersPerDepth` is a positive cap `m`, no depth level
of a `discoverFromFighter` result ever records more than `m` newly found
fighters (the loop breaks as soon as the count reaches the cap); and in
the concrete scenario with cap 1 and two depth-0 frontier entries,
exactly one (`A`) is fetched, the other (`B`) stays in the frontier at
depth 0 unprocessed, and a subsequent call picks `B` up. -/
theorem c4_cap :
    (∀ (env : Env) (start : String) (opts : DiscoveryOptions)
       (st : EngineState) (m : Nat),
       opts.maxFightersPerDepth = some m → 0 < m →
       ∀ d', lenAt d' (discoverFromFighter env start opts
         st).2.1.fightersByDepth ≤ m) ∧
    (capCall1.2.2.fetches = ["A"] ∧
      lookupA "B" capCall1.1.depthMap = some 0 ∧
      capCall1.1.processed = [] ∧
      capCall2.2.2.fetches = ["B"]) := by
  constructor
  · intro env start opts st m hm h0 d'
    apply depthLoop_cap env opts m hm h0
    intro d''
    simp [emptyResult, lenAt, lookupA]
  · decide

/-- Witness for C4 at the concrete cap-1 scenario. -/
theorem c4_cap_witness :
    lenAt 0 (discoverFromFighter envTwo "A" ⟨0, some 1⟩
      engineTwoAtZero).2.1.fightersByDepth ≤ 1 :=
  c4_cap.1 envTwo "A" ⟨0, some 1⟩ engineTwoAtZero 1 rfl (by decide) 0

/-! ### The refetch bug (claim C2) -/

/-- C2: evaluation of the code at the failing input.  Call 1 (cap 1)
fetches `A` but the `break` on line 107 skips `processed.add("A")` on
line 118; call 2 stores `B` under the same normalized name `"x"`,
overwriting the only database record of `A`'s id; call 3 then finds `A`
in neither the processed set nor the database and fetches it a second
time: `A` occurs twice in the engine's fetch history. -/
theorem c2_refetch :
    collideCall1.2.2.fetches = ["A"] ∧
    collideCall1.1.processed = [] ∧
    hasFighterById collideCall2.1.database "A" = false ∧
    collideCall3.2.2.fetches = ["A"] ∧
    ((collideCall1.2.2.fetches ++ collideCall2.2.2.fetches ++
      collideCall3.2.2.fetches).count "A") = 2 := by
  decide

/-! ### Frontier insertion (claim C1) -/

theorem processFighter_depthMap (env : Env) (st : EngineState)
    (id : String) : (processFighter env st id).1.depthMap = st.depthMap := by
  simp only [processFighter]
  split <;> (try split) <;> rfl

theorem DiscInv_congr {orig : DepthMap} {start : String}
    {st st' : EngineState} {tr tr' : CallTrace}
    (hm : st'.depthMap = st.depthMap) (hi : tr'.inserts = tr.inserts)
    (h : DiscInv orig start st tr) : DiscInv orig start st' tr' := by
  obtain ⟨h1, h2, h3, h4⟩ := h
  refine ⟨?_, ?_, ?_, ?_⟩
  · intro id d hd
    rw [hm]
    exact h1 id d hd
  · intro p hp
    rw [hm]
    exact h2 p (hi ▸ hp)
  · rw [hi]
    exact h3
  · intro p hp
    exact h4 p (hi ▸ hp)

theorem addLinks_inv (orig : DepthMap) (start : String) (d : Nat) :
    ∀ (ls : List String) (st : EngineState) (tr : CallTrace),
      DiscInv orig start st tr →
      DiscInv orig start (addLinks d ls st tr).1 (addLinks d ls st tr).2 := by
  intro ls
  induction ls with
  | nil => intro st tr h; simpa [addLinks] using h
  | cons l rest ih =>
    intro st tr h
    simp only [addLinks]
    split
    · next hguard =>
      apply ih
      obtain ⟨h1, h2, h3, h4⟩ := h
      have hnone : lookupA l st.depthMap = none := by
        simp only [Bool.and_eq_true, Option.isNone_iff_eq_none] at hguard
        exact hguard.1.1
      refine ⟨?_, ?_, ?_, ?_⟩
      · intro id dd hid
        have hsome := h1 id dd hid
        have hne : id ≠ l := by
          intro e
          subst e
          rw [hsome] at hnone
          exact Option.noConfusion hnone
        simpa [lookupA_setA_ne _ hne] using hsome
      · intro p hp
        simp only [List.mem_append, List.mem_singleton] at hp
        rcases hp with hp | hp
        · have hsome := h2 p hp
          have hne : p.1 ≠ l := by
            intro e
            rw [e] at hsome
            rw [hsome] at hnone
            exact Option.noConfusion hnone
          simpa [lookupA_setA_ne _ hne] using hsome
        · subst hp
          simp [lookupA_setA_self]
      · simp only [List.map_append]
        refine List.Nodup.append h3 (by simp) ?_
        intro a ha hb
        simp only [List.map_cons, List.map_nil, List.mem_singleton] at hb
        subst hb
        simp only [List.mem_map] at ha
        obtain ⟨p, hp, hpa⟩ := ha
        have hsome := h2 p hp
        rw [hpa] at hsome
        rw [hsome] at hnone
        exact Option.noConfusion hnone
      · intro p hp hps
        simp only [List.mem_append, List.mem_singleton] at hp
        rcases hp with hp | hp
        · exact h4 p hp hps
        · subst hp
          simp only at hps
          rcases horig : lookupA l orig with _ | dd
          · rfl
          · exfalso
            have hseed : lookupA l (setA start 0 orig) = some dd := by
              rw [lookupA_setA_ne _ hps]
              exact horig
            have := h1 l dd hseed
            rw [this] at hnone
            exact Option.noConfusion hnone
    · exact ih st tr h

theorem processList_inv (env : Env) (opts : DiscoveryOptions)
    (orig : DepthMap) (start : String) (d : Nat) :
    ∀ (ids : List String) (st : EngineState) (res : DiscoveryResult)
      (tr : CallTrace),
      DiscInv orig start st tr →
      DiscInv orig start (processList env opts d ids st res tr).1
        (processList env opts d ids st res tr).2.2 := by
  intro ids
  induction ids with
  | nil => intro st res tr h; simpa [processList] using h
  | cons id rest ih =>
    intro st res tr h
    simp only [processList]
    split
    · exact ih _ _ _ h
    · split
      · next st1 heq =>
        have hst1 : st1.depthMap = st.depthMap := by
          have hc := congrArg (fun x => x.1.depthMap) heq
          simpa [processFighter_depthMap] using hc.symm
        apply ih
        exact DiscInv_congr (by simpa using hst1) (by simp) h
      · next st1 links heq =>
        have hst1 : st1.depthMap = st.depthMap := by
          have hc := congrArg (fun x => x.1.depthMap) heq
          simpa [processFighter_depthMap] using hc.symm
        have hinv1 : DiscInv orig start st1
            {tr with fetches := tr.fetches ++ [id]} :=
          DiscInv_congr hst1 (by simp) h
        by_cases hdep : d < opts.depth
        · simp only [if_pos hdep]
          split
          · exact addLinks_inv orig start d links st1 _ hinv1
          · apply ih
            exact DiscInv_congr (by simp)
              (by simp) (addLinks_inv orig start d links st1 _ hinv1)
        · simp only [if_neg hdep]
          split
          · exact hinv1
          · apply ih
            exact DiscInv_congr (by simp) (by simp) hinv1

theorem depthLoop_inv (env : Env) (opts : DiscoveryOptions)
    (orig : DepthMap) (start : String) :
    ∀ (fuel d : Nat) (st : EngineState) (res : DiscoveryResult)
      (tr : CallTrace),
      DiscInv orig start st tr →
      DiscInv orig start (depthLoop env opts fuel d st res tr).1
        (depthLoop env opts fuel d st res tr).2.2 := by
  intro fuel
  induction fuel with
  | zero => intro d st res tr h; simpa [depthLoop] using h
  | succ fuel ih =>
    intro d st res tr h
    simp only [depthLoop]
    split
    · exact h
    · exact ih _ _ _ _ (processList_inv env opts orig start d _ _ _ _ h)

theorem discoverFromFighter_inv (env : Env) (start : String)
    (opts : DiscoveryOptions) (st : EngineState) :
    DiscInv st.depthMap start (discoverFromFighter env start opts st).1
      (discoverFromFighter env start opts st).2.2 := by
  apply depthLoop_inv
  refine ⟨?_, ?_, ?_, ?_⟩
  · intro id d h
    simpa using h
  · intro p hp
    simp only [List.mem_singleton] at hp
    subst hp
    simpa using lookupA_setA_self start 0 st.depthMap
  · simp
  · intro p hp hps
    simp only [List.mem_singleton] at hp
    subst hp
    simp only at hps
    exact absurd rfl hps

/-- C1 counterexample: (1) `B` is inserted into the frontier twice over
the engine's lifetime — at depth 1 by the call starting from `A`, then
again at depth 0 by line 55 of the call starting from `B`, which also
overwrites the recorded depth; (2) after the truncated first call
(depth bound 0), the already-processed starting identifier `A` links
directly to `X`, yet the second call records `X` at depth 2, not at the
one-hop distance from `A`. -/
theorem c1_counterexample :
    (("B", 1) ∈ seedCall1.2.2.inserts ∧
      ("B", 0) ∈ seedCall2.2.2.inserts ∧
      lookupA "B" seedCall1.1.depthMap = some 1 ∧
      lookupA "B" seedCall2.1.depthMap = some 0) ∧
    (("A", 0) ∈ truncCall1.2.2.inserts ∧
      "A" ∈ truncCall1.1.processed ∧
      "X" ∈ linksOf envTrunc "A" ∧
      lookupA "X" truncCall2.1.depthMap = some 2 ∧
      (2 : Nat) ≠ 1) := by
  decide

/-- C1 (amended): over any `discoverFromFighter` call, (i) the binding
of every identifier other than the call's starting identifier, once
present in the frontier, survives the call unchanged (first discovery
wins); (ii) every non-starting identifier logged as inserted was absent
from the pre-call frontier; (iii) no identifier is inserted twice within
one call; (iv) every logged insertion is present in the resulting
frontier at its logged depth.  Together, (i)-(iv) give that a
non-starting identifier enters the frontier at most once over the
engine's lifetime; the starting identifier itself is unconditionally
re-bound to depth 0 by each call (line 55), and the recorded depth is
the BFS level of the inserting call, not necessarily the globally
shortest hop count (see the counterexample). -/
theorem c1_frontier (env : Env) (start : String)
    (opts : DiscoveryOptions) (st : EngineState) :
    (∀ id d, id ≠ start → lookupA id st.depthMap = some d →
       lookupA id (discoverFromFighter env start opts st).1.depthMap =
         some d) ∧
    (∀ p ∈ (discoverFromFighter env start opts st).2.2.inserts,
       p.1 ≠ start → lookupA p.1 st.depthMap = none) ∧
    ((discoverFromFighter env start opts st).2.2.inserts.map
      Prod.fst).Nodup ∧
    (∀ p ∈ (discoverFromFighter env start opts st).2.2.inserts,
       lookupA p.1 (discoverFromFighter env start opts st).1.depthMap =
         some p.2) := by
  obtain ⟨h1, h2, h3, h4⟩ := discoverFromFighter_inv env start opts st
  refine ⟨?_, ?_, h3, h2⟩
  · intro id d hne hsome
    apply h1
    rw [lookupA_setA_ne _ hne]
    exact hsome
  · intro p hp hps
    exact h4 p hp hps

/-- Witness for C1: on the concrete seeded engine, the depth-1 binding
of `"A"` survives a call starting from `"Z"`. -/
theorem c1_frontier_witness :
    lookupA "A" (discoverFromFighter envSeed "Z" ⟨1, none⟩
      seedCall1.1).1.depthMap = some 0 :=
  (c1_frontier envSeed "Z" ⟨1, none⟩ seedCall1.1).1 "A" 0
    (by decide) (by decide)

/-! ### The depth-1 scenario (claim C3) -/

/-- C3 counterexample: in the stated scenario the returned
`fightersByDepth` is not exactly `{0: ["A"]}` — depth 1 is initialised
to an empty list (line 64 runs before the per-fighter loop), so key `1`
is present. -/
theorem c3_counterexample :
    lookupA 1 (discoverFromFighter envAlice "A" ⟨1, none⟩
        freshEngine).2.1.fightersByDepth = some [] ∧
    (discoverFromFighter envAlice "A" ⟨1, none⟩
        freshEngine).2.1.fightersByDepth ≠ [(0, ["A"])] := by
  decide

/-- C3 (amended): in the scenario of a fresh engine with start `"A"`,
depth 1, where `A` fetches "Alice" linking to `B` and `C` and both
`B`, `C` fail, the result is `newFighters = ["A"]`, two errors,
`fightersByDepth = {0: ["A"], 1: []}` (key 1 present with the empty
list), `depthReached = 1`, and the database holds exactly the one entry
keyed `"alice"`. -/
theorem c3_scenario :
    (discoverFromFighter envAlice "A" ⟨1, none⟩ freshEngine).2.1 =
      ⟨["A"], 1, [errMsg "B" 1, errMsg "C" 1], 1, [(0, ["A"]), (1, [])]⟩ ∧
    (discoverFromFighter envAlice "A" ⟨1, none⟩ freshEngine).1.database =
      [("alice", ⟨"A", none⟩)] ∧
    (discoverFromFighter envAlice "A" ⟨1, none⟩
        freshEngine).2.1.errors.length = 2 := by
  decide

/-! ### Search ordering (claim C9) -/

theorem searchLoop_cons_exact (nq : String) (data : DbEntry)
    (rest : Database) (acc : List SearchHit) :
    searchLoop nq ((nq, data) :: rest) acc =
      searchLoop nq rest (⟨nq, data.id, data.nickname⟩ :: acc) := by
  simp [searchLoop]

theorem searchLoop_cons_sub {nq name : String} {data : DbEntry}
    (rest : Database) (acc : List SearchHit) (h1 : ¬name = nq)
    (h2 : matchesEntry nq name data = true) :
    searchLoop nq ((name, data) :: rest) acc =
      searchLoop nq rest (acc ++ [⟨name, data.id, data.nickname⟩]) := by
  by_cases hc : containsSub name.data nq.data
  · simp [searchLoop, h1, hc]
  · rcases hnick : data.nickname with _ | nick
    · exfalso
      simp [matchesEntry, hc, hnick] at h2
    · have hcn : containsSub (normalizeName nick).data nq.data = true := by
        simpa [matchesEntry, hc, hnick] using h2
      simp [searchLoop, h1, hc, hnick, hcn]

theorem searchLoop_cons_skip {nq name : String} {data : DbEntry}
    (rest : Database) (acc : List SearchHit) (h1 : ¬name = nq)
    (h2 : ¬matchesEntry nq name data = true) :
    searchLoop nq ((name, data) :: rest) acc = searchLoop nq rest acc := by
  have hc : ¬containsSub name.data nq.data = true := by
    intro hc
    exact h2 (by simp [matchesEntry, hc])
  rcases hnick : data.nickname with _ | nick
  · simp [searchLoop, h1, hc, hnick]
  · have hcn : ¬containsSub (normalizeName nick).data nq.data = true := by
      intro hcn
      exact h2 (by simp [matchesEntry, hnick, hcn])
    simp [searchLoop, h1, hc, hnick, hcn]

theorem substrMatches_cons_in {nq name : String} {data : DbEntry}
    (rest : Database) (h1 : ¬name = nq)
    (h2 : matchesEntry nq name data = true) :
    substrMatches nq ((name, data) :: rest) =
      ⟨name, data.id, data.nickname⟩ :: substrMatches nq rest := by
  simp [substrMatches, List.filter_cons, h1, h2]

theorem substrMatches_cons_out {nq name : String} {data : DbEntry}
    (rest : Database)
    (h2 : (name != nq && matchesEntry nq name data) = false) :
    substrMatches nq ((name, data) :: rest) = substrMatches nq rest := by
  simp [substrMatches, List.filter_cons, h2]

theorem searchLoop_not_mem (nq : String) :
    ∀ (db : Database) (acc : List SearchHit),
      nq ∉ db.map Prod.fst →
      searchLoop nq db acc = acc ++ substrMatches nq db := by
  intro db
  induction db with
  | nil => intro acc h; simp [searchLoop, substrMatches]
  | cons entry rest ih =>
    intro acc h
    obtain ⟨name, data⟩ := entry
    simp only [List.map_cons, List.mem_cons, not_or] at h
    obtain ⟨hne, hrest⟩ := h
    have hne' : ¬name = nq := fun e => hne e.symm
    by_cases hm : matchesEntry nq name data = true
    · rw [searchLoop_cons_sub rest acc hne' hm, ih _ hrest,
        substrMatches_cons_in rest hne' hm]
      simp
    · rw [searchLoop_cons_skip rest acc hne' hm, ih _ hrest,
        substrMatches_cons_out rest (by simp [hm])]

theorem searchLoop_split (nq : String) (e : DbEntry) :
    ∀ (pre post : Database) (acc : List SearchHit),
      nq ∉ pre.map Prod.fst → nq ∉ post.map Prod.fst →
      searchLoop nq (pre ++ (nq, e) :: post) acc =
        ⟨nq, e.id, e.nickname⟩ ::
          ((acc ++ substrMatches nq pre) ++ substrMatches nq post) := by
  intro pre
  induction pre with
  | nil =>
    intro post acc hpre hpost
    rw [List.nil_append, searchLoop_cons_exact nq e post acc,
      searchLoop_not_mem nq post _ hpost]
    simp [substrMatches]
  | cons entry pre' ih =>
    intro post acc hpre hpost
    obtain ⟨name, data⟩ := entry
    simp only [List.map_cons, List.mem_cons, not_or] at hpre
    obtain ⟨hne, hpre'⟩ := hpre
    have hne' : ¬name = nq := fun e' => hne e'.symm
    rw [List.cons_append]
    by_cases hm : matchesEntry nq name data = true
    · rw [searchLoop_cons_sub _ acc hne' hm, ih _ _ hpre' hpost,
        substrMatches_cons_in pre' hne' hm]
      simp
    · rw [searchLoop_cons_skip _ acc hne' hm, ih _ _ hpre' hpost,
        substrMatches_cons_out pre' (by simp [hm])]

theorem lookupA_decomp {κ β : Type} [DecidableEq κ] (k : κ) :
    ∀ (l : List (κ × β)) (v : β), lookupA k l = some v →
      ∃ pre post, l = pre ++ (k, v) :: post ∧ k ∉ pre.map Prod.fst := by
  intro l
  induction l with
  | nil => intro v h; simp [lookupA] at h
  | cons entry rest ih =>
    intro v h
    obtain ⟨a, b⟩ := entry
    by_cases ha : a = k
    · subst ha
      have hbv : b = v := by simpa [lookupA] using h
      subst hbv
      exact ⟨[], rest, rfl, by simp⟩
    · simp only [lookupA, if_neg ha] at h
      obtain ⟨pre, post, he, hn⟩ := ih v h
      refine ⟨(a, b) :: pre, post, by rw [he]; simp, ?_⟩
      simp only [List.map_cons, List.mem_cons, not_or]
      exact ⟨fun e => ha e.symm, hn⟩

/-- C9: whenever the normalized query exactly matches the stored key of
some entry of a store with distinct keys, `searchFighters` returns that
entry first, followed by the substring matches in store iteration
order, capped at 20 results. -/
theorem c9_exact_first (db : Database) (q : String) (e : DbEntry)
    (hnd : (db.map Prod.fst).Nodup)
    (hfound : lookupA (normalizeName q) db = some e) :
    searchFighters db q =
      (⟨normalizeName q, e.id, e.nickname⟩ ::
        substrMatches (normalizeName q) db).take 20 ∧
    (searchFighters db q).head? =
      some ⟨normalizeName q, e.id, e.nickname⟩ := by
  obtain ⟨pre, post, hdb, hpre⟩ := lookupA_decomp (normalizeName q) db e hfound
  have hpost : normalizeName q ∉ post.map Prod.fst := by
    rw [hdb] at hnd
    simp only [List.map_append, List.map_cons, List.nodup_append,
      List.nodup_cons] at hnd
    exact hnd.2.1.1
  have hmain : searchFighters db q =
      (⟨normalizeName q, e.id, e.nickname⟩ ::
        (substrMatches (normalizeName q) pre ++
          substrMatches (normalizeName q) post)).take 20 := by
    rw [searchFighters, hdb,
      searchLoop_split (normalizeName q) e pre post [] hpre hpost]
    simp
  have hsub : substrMatches (normalizeName q) db =
      substrMatches (normalizeName q) pre ++
        substrMatches (normalizeName q) post := by
    rw [hdb]
    simp [substrMatches, List.filter_append, List.filter_cons]
  constructor
  · rw [hmain, hsub]
  · rw [hmain]
    simp

/-- Witness for C9 at the concrete store `dbDemo`: the exact match
`"alice"` is returned first although the substring match `"bob alice"`
was inserted earlier. -/
theorem c9_exact_first_witness :
    searchFighters dbDemo "Alice!" =
      (⟨normalizeName "Alice!", "id2", some "The Champ"⟩ ::
        substrMatches (normalizeName "Alice!") dbDemo).take 20 ∧
    (searchFighters dbDemo "Alice!").head? =
      some ⟨normalizeName "Alice!", "id2", some "The Champ"⟩ :=
  c9_exact_first dbDemo "Alice!" ⟨"id2", some "The Champ"⟩
    (by decide) (by decide)

/-! ### Expansion on an empty store (claim C5) -/

/-- C5: `expandDatabase` on an engine whose database is empty returns
the `NO_STARTING_POINT` error, performs no fetches (the trace is empty)
and leaves the state unchanged. -/
theorem c5_expand_empty (env : Env) (shuffle : Database → Database)
    (opts : DiscoveryOptions) (st : EngineState)
    (h : st.database = []) :
    expandDatabase env shuffle opts st =
      (st, ⟨[], []⟩,
        .error ⟨"No fighters in database. Use discoverFromFighter() first.",
                "NO_STARTING_POINT"⟩) := by
  simp [expandDatabase, h]

/-- Witness for C5 at a concrete empty engine. -/
theorem c5_expand_empty_witness :
    freshEngine.database = [] ∧
    expandDatabase envAlice (fun db => db) ⟨1, none⟩ freshEngine =
      (freshEngine, ⟨[], []⟩,
        .error ⟨"No fighters in database. Use discoverFromFighter() first.",
                "NO_STARTING_POINT"⟩) :=
  ⟨rfl, c5_expand_empty envAlice (fun db => db) ⟨1, none⟩ freshEngine rfl⟩

/-! ### Adaptive backoff (claim C6) -/

/-- C6 counterexample: after exactly three recorded failures (and no
successes) the interval is still 1000 and the degraded flag is still
clear — "three or more" failures do not trigger the backoff, because
the code tests `failureCount > 3`. -/
theorem c6_counterexample :
    (recordFailure (recordFailure (recordFailure
        adaptiveInit))).failureCount = 3 ∧
    (recordFailure (recordFailure (recordFailure
        adaptiveInit))).successCount = 0 ∧
    (recordFailure (recordFailure (recordFailure
        adaptiveInit))).rateLimitMs = 1000 ∧
    (recordFailure (recordFailure (recordFailure
        adaptiveInit))).adaptiveMode = false := by
  decide

/-- C6 (amended): a `recordFailure` call that brings the failure count
strictly above three while fewer than ten successes are recorded doubles
the interval and sets the degraded flag; a subsequent `recordSuccess`
clears the flag without reverting the interval. -/
theorem c6_backoff :
    (∀ s : AdaptiveRL, 3 < s.failureCount + 1 → s.successCount < 10 →
        (recordFailure s).rateLimitMs = s.rateLimitMs * 2 ∧
        (recordFailure s).adaptiveMode = true) ∧
    (∀ s : AdaptiveRL, (recordSuccess s).adaptiveMode = false ∧
        (recordSuccess s).rateLimitMs = s.rateLimitMs) := by
  constructor
  · intro s h1 h2
    simp [recordFailure, h1, h2]
  · intro s
    simp [recordSuccess]

/-- Witness for C6 at the state holding three failures: the fourth
failure doubles the interval, and a success then clears the flag. -/
theorem c6_backoff_witness :
    ((recordFailure ⟨1000, 0, 3, false⟩).rateLimitMs = 1000 * 2 ∧
      (recordFailure ⟨1000, 0, 3, false⟩).adaptiveMode = true) ∧
    ((recordSuccess ⟨2000, 0, 4, true⟩).adaptiveMode = false ∧
      (recordSuccess ⟨2000, 0, 4, true⟩).rateLimitMs = 2000) :=
  ⟨c6_backoff.1 ⟨1000, 0, 3, false⟩ (by decide) (by decide),
    c6_backoff.2 ⟨2000, 0, 4, true⟩⟩

/-! ### Cache eviction (claim C8) -/

theorem foldOldest_le {α : Type} :
    ∀ (l : List (String × CacheEntry α)) (a : Option String × Nat),
      (l.foldl oldestStep a).2 ≤ a.2 ∧
      ∀ p ∈ l, (l.foldl oldestStep a).2 ≤ p.2.timestamp := by
  intro l
  induction l with
  | nil => intro a; simp
  | cons q rest ih =>
    intro a
    simp only [List.foldl_cons]
    by_cases hq : q.2.timestamp < a.2
    · have := ih (some q.1, q.2.timestamp)
      simp only [oldestStep, if_pos hq]
      refine ⟨Nat.le_trans this.1 (Nat.le_of_lt hq), ?_⟩
      intro p hp
      simp only [List.mem_cons] at hp
      rcases hp with hp | hp
      · subst hp
        exact this.1
      · exact this.2 p hp
    · have := ih a
      simp only [oldestStep, if_neg hq]
      refine ⟨this.1, ?_⟩
      intro p hp
      simp only [List.mem_cons] at hp
      rcases hp with hp | hp
      · subst hp
        exact Nat.le_trans this.1 (Nat.le_of_not_lt hq)
      · exact this.2 p hp

theorem foldOldest_found {α : Type} :
    ∀ (l : List (String × CacheEntry α)) (a : Option String × Nat),
      l.foldl oldestStep a = a ∨
      ∃ k e, (l.foldl oldestStep a).1 = some k ∧ (k, e) ∈ l ∧
        e.timestamp = (l.foldl oldestStep a).2 ∧
        (l.foldl oldestStep a).2 < a.2 := by
  intro l
  induction l with
  | nil => intro a; left; simp
  | cons q rest ih =>
    intro a
    simp only [List.foldl_cons]
    by_cases hq : q.2.timestamp < a.2
    · simp only [oldestStep, if_pos hq]
      right
      rcases ih (some q.1, q.2.timestamp) with heq | ⟨k, e, hk, hmem, hts, hlt⟩
      · exact ⟨q.1, q.2, by rw [heq], by simp, by rw [heq], by rw [heq]; exact hq⟩
      · exact ⟨k, e, hk, List.mem_cons_of_mem q hmem, hts,
          Nat.lt_trans hlt hq⟩
    · simp only [oldestStep, if_neg hq]
      rcases ih a with heq | ⟨k, e, hk, hmem, hts, hlt⟩
      · left; exact heq
      · right; exact ⟨k, e, hk, List.mem_cons_of_mem q hmem, hts, hlt⟩

theorem evictOldest_spec {α : Type} (now : Nat)
    (l : List (String × CacheEntry α))
    (h : ∃ p ∈ l, p.2.timestamp < now) :
    ∃ k e, (k, e) ∈ l ∧ e.timestamp < now ∧
      (∀ p ∈ l, e.timestamp ≤ p.2.timestamp) ∧
      Cache.evictOldest now l = l.eraseP (fun p => p.1 == k) ∧
      (Cache.evictOldest now l).length + 1 = l.length := by
  obtain ⟨p0, hp0, hlt0⟩ := h
  rcases foldOldest_found l (none, now) with heq | ⟨k, e, hk, hmem, hts, hlt⟩
  · exfalso
    have := (foldOldest_le l (none, now)).2 p0 hp0
    rw [heq] at this
    exact Nat.lt_irrefl _ (Nat.lt_of_lt_of_le hlt0 this)
  · have herase : Cache.evictOldest now l = l.eraseP (fun p => p.1 == k) := by
      simp only [Cache.evictOldest, oldestKey, hk]
    refine ⟨k, e, hmem, ?_, ?_, herase, ?_⟩
    · rw [hts]
      exact hlt
    · intro p hp
      rw [hts]
      exact (foldOldest_le l (none, now)).2 p hp
    · rw [herase]
      have hlen : (l.eraseP (fun p => p.1 == k)).length = l.length - 1 :=
        List.length_eraseP_of_mem hmem (by simp)
      have hpos : 0 < l.length := List.length_pos.mpr
        (List.ne_nil_of_mem hmem)
      omega

/-- C8 (amended): when `set` runs at or above capacity after the sweep
and some surviving entry was created strictly before the current
millisecond, a globally-oldest surviving entry is erased before the
insertion and the entry count does not grow past the swept count; when
every surviving entry carries the current timestamp, the strict-minimum
fold of `evictOldest` finds no key, nothing is evicted, and the count
can exceed the configured maximum (see the counterexample). -/
theorem c8_eviction (α : Type) (c : Cache α) (now : Nat) (key : String)
    (v : α) (ttl : Option Nat)
    (hcap : c.maxSize ≤ (Cache.cleanup now c.entries).length)
    (hex : ∃ p ∈ Cache.cleanup now c.entries, p.2.timestamp < now) :
    (∃ k e, (k, e) ∈ Cache.cleanup now c.entries ∧ e.timestamp < now ∧
       (∀ p ∈ Cache.cleanup now c.entries, e.timestamp ≤ p.2.timestamp) ∧
       (Cache.set now key v ttl c).entries =
         setA key ⟨v, now, ttlOrDefault ttl c.defaultTtl⟩
           ((Cache.cleanup now c.entries).eraseP (fun p => p.1 == k))) ∧
    (Cache.set now key v ttl c).entries.length ≤
      (Cache.cleanup now c.entries).length := by
  obtain ⟨k, e, hmem, hlt, hmin, herase, hlen⟩ :=
    evictOldest_spec now (Cache.cleanup now c.entries) hex
  have hset : (Cache.set now key v ttl c).entries =
      setA key ⟨v, now, ttlOrDefault ttl c.defaultTtl⟩
        (Cache.evictOldest now (Cache.cleanup now c.entries)) := by
    simp only [Cache.set, if_pos hcap]
  constructor
  · exact ⟨k, e, hmem, hlt, hmin, by rw [hset, herase]⟩
  · rw [hset]
    have := setA_length_le key
      (⟨v, now, ttlOrDefault ttl c.defaultTtl⟩ : CacheEntry α)
      (Cache.evictOldest now (Cache.cleanup now c.entries))
    omega

/-- C8 counterexample: at capacity 1, a `set` in the same millisecond
as the only entry's creation evicts nothing (the fold's strict `<`
against `Date.now()` never fires) and the store grows to 2 entries,
exceeding the configured maximum. -/
theorem c8_counterexample :
    cacheAtFive.maxSize = 1 ∧
    (Cache.set 5 "j" 9 none cacheAtFive).entries.length = 2 := by
  decide

/-- Witness for C8 at the concrete one-entry cache, one millisecond
after its entry was created. -/
theorem c8_eviction_witness :
    (∃ k e, (k, e) ∈ Cache.cleanup 6 cacheAtFive.entries ∧
       e.timestamp < 6 ∧
       (∀ p ∈ Cache.cleanup 6 cacheAtFive.entries,
         e.timestamp ≤ p.2.timestamp) ∧
       (Cache.set 6 "j" 9 none cacheAtFive).entries =
         setA "j" ⟨9, 6, ttlOrDefault none cacheAtFive.defaultTtl⟩
           ((Cache.cleanup 6 cacheAtFive.entries).eraseP
             (fun p => p.1 == k))) ∧
    (Cache.set 6 "j" 9 none cacheAtFive).entries.length ≤
      (Cache.cleanup 6 cacheAtFive.entries).length :=
  c8_eviction Nat cacheAtFive 6 "j" 9 none (by decide) (by decide)

/-! ### The rate-limiter race (claim C7) -/

/-- C7: the fast path of `waitForNextRequest` is not synchronized with
the sleeping `processQueue`; on the `raceSched` schedule with a 1000 ms
interval, `B` (arriving second) is granted at 1000 and the queued `A`
is granted at 1001 — two resolutions 1 ms apart and out of
first-come-first-served order. -/
theorem c7_race :
    (runRL 1000 raceSched).grants = [("B", 1000), ("A", 1001)] ∧
    1001 - 1000 < (1000 : Nat) := by
  decide

end Sherdog
